import Mathlib

/-!
Shallow embedding of the lexer in `llll.py`.

The Python module defines a `TokenType` enum, a `Token` dataclass, and a
stateful `Lexer` class whose `tokenize` method walks the character buffer
once, dispatching on the current character to sub-scanners
(`discard_comment`, `read_atom`, `read_str`, `read_num`).

Modelling decisions, each justified against the source:

* Characters are Lean `Char`, the buffer `chars = list(self.text)` is
  `String.data`.
* `chars[i]` with `i >= len(chars)` raises `IndexError` in Python; every
  such access is modelled by the failure value `LexStop.outOfBounds`.
* `Lexer.error` raises `ValueError`; it is modelled by
  `LexStop.hardError` (it is never invoked by the scanning code, which is
  exactly what one of the theorems below establishes).
* The `while` loops of the sub-scanners advance `i` by one on every
  iteration that does not return, so `chars.length + 1` iterations always
  suffice before either returning or hitting an out-of-bounds access; the
  loops are written with that explicit iteration budget, and the budget-
  exhausted branch returns `outOfBounds`, which is provably unreachable
  from the wrappers.  The top-level dispatch loop of `tokenize`, by
  contrast, is genuinely partial in Python: a character matched by no
  dispatch rule leaves `i` unchanged and the loop spins forever.  That
  divergence is modelled by the distinct failure value `LexStop.fuelOut`,
  and termination theorems below show the budget `chars.length + 1` is
  never exhausted when every character is covered by a dispatch rule.
* The unused `line_num` parameters of `read_atom`, `read_str`, `read_num`
  are dropped; the Python bodies read `self.line` instead, which is
  passed as the `selfLine`/`line` argument (and threaded through
  `read_str`, the only sub-scanner that mutates it).
-/

namespace Llll

/-- The `TokenType` enum of `llll.py`. -/
inductive TokenType where
  | PAREN_OPEN
  | PAREN_CLOSE
  | ATOM
  | STR
  | NUM
  | ERR
deriving DecidableEq, Repr

/-- The `Token` dataclass: `type`, `value`, `line`. -/
structure Token where
  type : TokenType
  value : String
  line : Nat
deriving DecidableEq, Repr

/-- The mutable state of a `Lexer` instance: `text`, `pos`, `line`,
`tokens`, exactly the four attributes set by `Lexer.__init__`. -/
structure Lexer where
  text : String
  pos : Nat
  line : Nat
  tokens : List Token
deriving DecidableEq, Repr

/-- `Lexer.__init__`: `pos = 0`, `line = 1`, `tokens = []`. -/
def mkLexer (text : String) : Lexer :=
  { text := text, pos := 0, line := 1, tokens := [] }

/-- The ways a scan can stop abnormally.  `outOfBounds` models the
`IndexError` raised by `chars[i]` past the end of the buffer;
`hardError` models the `ValueError` raised by `Lexer.error`;
`fuelOut` models divergence of the dispatch loop (which in Python spins
forever on a character matched by no rule). -/
inductive LexStop where
  | outOfBounds
  | hardError (message : String) (line : Nat)
  | fuelOut
deriving DecidableEq, Repr

/-- `Lexer.error`: raises a `ValueError` carrying the message and the
current line.  Never called by the scanning code. -/
def Lexer.error (l : Lexer) (message : String) : LexStop :=
  .hardError message l.line

/-- Python `str.isspace` on the ASCII range: space, tab, newline,
vertical tab, form feed, carriage return. -/
def pyIsSpace (c : Char) : Bool :=
  c == ' ' || c == '\t' || c == '\n' || c == '\x0b' || c == '\x0c' || c == '\r'

/-- The apostrophe character, `chr 39`, handled by the quote-shorthand
rule of the dispatch loop. -/
def singleQuote : Char := Char.ofNat 39

/-- `atom_start_chars` from `tokenize`: the characters that can
initialize an atom. -/
def atom_start_chars : List Char :=
  "abcdefghijklmnopqrstuvwxyzABCDEFGHIJKLMNOPQRSTUVWXYZ#+-*=/%<>!&|^~?".data

/-- `str_start_chars` from `tokenize`: the characters that can
initialize a string. -/
def str_start_chars : List Char := "\"".data

/-- `num_start_chars` from `tokenize`: the characters that can
initialize a number. -/
def num_start_chars : List Char := "0123456789".data

/-- Loop body of `Lexer.discard_comment`: advance until a newline is
found, return the index of the newline itself. -/
def discard_comment_go : Nat → List Char → Nat → Except LexStop Nat
  | 0, _, _ => .error .outOfBounds
  | fuel+1, chars, i =>
    match chars[i]? with
    | none => .error .outOfBounds
    | some char =>
      if char ≠ '\n' then discard_comment_go fuel chars (i+1) else .ok i

/-- `Lexer.discard_comment(i, chars)`.  The iteration budget
`chars.length + 1` is never exhausted: each step either returns or
advances `i`, and the step at `i = chars.length` stops out-of-bounds. -/
def discard_comment (chars : List Char) (i : Nat) : Except LexStop Nat :=
  discard_comment_go (chars.length + 1) chars i

/-- Loop body of `Lexer.read_atom`: on a character in `atom_err_chars`
return an `ERR` token at the current index; on whitespace or a
parenthesis return the accumulated `ATOM`; otherwise accumulate and
advance. -/
def read_atom_go : Nat → Nat → List Char → List Char → Nat → String →
    Except LexStop (Nat × Token)
  | 0, _, _, _, _, _ => .error .outOfBounds
  | fuel+1, selfLine, atom_err_chars, chars, i, atom_str =>
    match chars[i]? with
    | none => .error .outOfBounds
    | some char =>
      if char ∈ atom_err_chars then
        .ok (i, { type := .ERR,
                  value := "Atoms cannot contain quotes or numbers",
                  line := selfLine })
      else if pyIsSpace char || char ∈ ['(', ')', '\n'] then
        .ok (i, { type := .ATOM, value := atom_str, line := selfLine })
      else
        read_atom_go fuel selfLine atom_err_chars chars (i+1) (atom_str.push char)

/-- `Lexer.read_atom(i, line_num, atom_err_chars, chars)`.  `selfLine`
is the value of `self.line` (the `line_num` parameter is unused in the
source; the body reads `self.line`). -/
def read_atom (selfLine : Nat) (atom_err_chars : List Char)
    (chars : List Char) (i : Nat) : Except LexStop (Nat × Token) :=
  read_atom_go (chars.length + 1) selfLine atom_err_chars chars i ""

/-- Loop body of `Lexer.read_str`: on the termination character, append
it, advance past it and return the `STR` token stamped with the
*current* value of `self.line`; on a newline, increment `self.line`,
append and advance; otherwise append and advance.  Returns the final
index, the token, and the final value of `self.line`. -/
def read_str_go : Nat → Nat → Char → List Char → Nat → String →
    Except LexStop (Nat × Token × Nat)
  | 0, _, _, _, _, _ => .error .outOfBounds
  | fuel+1, line, str_termination_char, chars, i, str_str =>
    match chars[i]? with
    | none => .error .outOfBounds
    | some char =>
      if char = str_termination_char then
        .ok (i+1, { type := .STR, value := str_str.push char, line := line }, line)
      else if char = '\n' then
        read_str_go fuel (line+1) str_termination_char chars (i+1) (str_str.push char)
      else
        read_str_go fuel line str_termination_char chars (i+1) (str_str.push char)

/-- `Lexer.read_str(i, line_num, str_termination_char, chars)`: append
the opening quote, advance, then run the loop.  The source's
`char in str_termination_char` tests membership in a one-character
string, i.e. equality. -/
def read_str (selfLine : Nat) (str_termination_char : Char)
    (chars : List Char) (i : Nat) : Except LexStop (Nat × Token × Nat) :=
  match chars[i]? with
  | none => .error .outOfBounds
  | some char =>
    read_str_go (chars.length + 1) selfLine str_termination_char chars (i+1)
      (String.mk [char])

/-- Loop body of `Lexer.read_num`: on a character in `num_error_chars`
return an `ERR` token at the current index; on whitespace or a
parenthesis return the accumulated `NUM`; otherwise accumulate and
advance. -/
def read_num_go : Nat → Nat → List Char → List Char → Nat → String →
    Except LexStop (Nat × Token)
  | 0, _, _, _, _, _ => .error .outOfBounds
  | fuel+1, selfLine, num_error_chars, chars, i, num_str =>
    match chars[i]? with
    | none => .error .outOfBounds
    | some char =>
      if char ∈ num_error_chars then
        .ok (i, { type := .ERR,
                  value := "Numbers cannot contain anything other than numerals and periods",
                  line := selfLine })
      else if pyIsSpace char || char ∈ ['(', ')', '\n'] then
        .ok (i, { type := .NUM, value := num_str, line := selfLine })
      else
        read_num_go fuel selfLine num_error_chars chars (i+1) (num_str.push char)

/-- `Lexer.read_num(i, line_num, num_error_chars, chars)`. -/
def read_num (selfLine : Nat) (num_error_chars : List Char)
    (chars : List Char) (i : Nat) : Except LexStop (Nat × Token) :=
  read_num_go (chars.length + 1) selfLine num_error_chars chars i ""

/-- The dispatch loop of `Lexer.tokenize` (`while i < len(chars)`),
threading the cursor `i`, `self.line`, and `self.tokens`.  Every
completed iteration advances the cursor except the final `else`-less
fall-through of the Python `if`-chain: a character matched by no rule
leaves `i` untouched, so the Python loop spins forever; here that path
recurses on the same cursor and eventually returns `fuelOut`. -/
def tokenize_loop : Nat → List Char → Nat → Nat → List Token →
    Except LexStop (List Token × Nat)
  | 0, _, _, _, _ => .error .fuelOut
  | fuel+1, chars, i, line, tokens =>
    match chars[i]? with
    | none => .ok (tokens, line)
    | some char =>
      if char = '\n' then
        tokenize_loop fuel chars (i+1) (line+1) tokens
      else if pyIsSpace char then
        tokenize_loop fuel chars (i+1) line tokens
      else if char = ';' then
        match discard_comment chars i with
        | .error e => .error e
        | .ok j => tokenize_loop fuel chars j line tokens
      else if char = '(' then
        tokenize_loop fuel chars (i+1) line
          (tokens ++ [{ type := .PAREN_OPEN, value := "(", line := line }])
      else if char = ')' then
        tokenize_loop fuel chars (i+1) line
          (tokens ++ [{ type := .PAREN_CLOSE, value := ")", line := line }])
      else if char = singleQuote then
        tokenize_loop fuel chars (i+1) line
          (tokens ++ [{ type := .ATOM, value := String.mk [singleQuote], line := line }])
      else if char ∈ atom_start_chars ∨ char = '.' then
        match read_atom line (str_start_chars ++ num_start_chars) chars i with
        | .error e => .error e
        | .ok (j, tok) => tokenize_loop fuel chars j line (tokens ++ [tok])
      else if char ∈ str_start_chars then
        match read_str line char chars i with
        | .error e => .error e
        | .ok (j, tok, line2) => tokenize_loop fuel chars j line2 (tokens ++ [tok])
      else if char ∈ num_start_chars then
        match read_num line (atom_start_chars ++ str_start_chars) chars i with
        | .error e => .error e
        | .ok (j, tok) => tokenize_loop fuel chars j line (tokens ++ [tok])
      else
        tokenize_loop fuel chars i line tokens

/-- `Lexer.tokenize`: runs the dispatch loop from cursor 0 over
`list(self.text)`, starting from the instance's current `self.line` and
`self.tokens` (neither is reset), and returns the token list together
with the updated instance state (`self.pos` is never touched). -/
def tokenize (l : Lexer) : Except LexStop (List Token × Lexer) :=
  match tokenize_loop (l.text.data.length + 1) l.text.data 0 l.line l.tokens with
  | .error e => .error e
  | .ok (tokens, line) => .ok (tokens, { l with line := line, tokens := tokens })

/-- A character is covered by some rule of the dispatch loop. -/
def classified (c : Char) : Bool :=
  c == '\n' || pyIsSpace c || c == ';' || c == '(' || c == ')' ||
    c == singleQuote || c ∈ atom_start_chars || c == '.' ||
    c ∈ str_start_chars || c ∈ num_start_chars

/-- Shift a token's line stamp by `d`; run the scan with the line
counter started `d` higher and every token comes out shifted by `d`. -/
def shiftToken (d : Nat) (t : Token) : Token :=
  { t with line := t.line + d }

deriving instance DecidableEq for Except

/-! ### Behaviour of the sub-scanners -/

/-- On success `read_atom_go` returns a cursor no smaller than where it
started, a token stamped with `selfLine`, and on its error path the
cursor sits on a character of `atom_err_chars`, with the fixed
diagnostic message. -/
theorem read_atom_go_spec (fuel selfLine : Nat) (errs chars : List Char) :
    ∀ i acc j tok, read_atom_go fuel selfLine errs chars i acc = .ok (j, tok) →
      i ≤ j ∧ tok.line = selfLine ∧
        (tok.type = .ERR →
          tok.value = "Atoms cannot contain quotes or numbers" ∧
            chars[j]? ∈ errs.map some) := by
  induction fuel with
  | zero => intro i acc j tok h; simp [read_atom_go] at h
  | succ fuel ih =>
    intro i acc j tok h
    cases hc : chars[i]? with
    | none => simp [read_atom_go, hc] at h
    | some char =>
      simp only [read_atom_go, hc] at h
      split at h
      · simp only [Except.ok.injEq, Prod.mk.injEq] at h
        obtain ⟨hj, htok⟩ := h
        subst hj; subst htok
        refine ⟨Nat.le_refl i, rfl, fun _ => ⟨rfl, ?_⟩⟩
        rw [hc]
        exact List.mem_map_of_mem some (by assumption)
      · split at h
        · simp only [Except.ok.injEq, Prod.mk.injEq] at h
          obtain ⟨hj, htok⟩ := h
          subst hj; subst htok
          exact ⟨Nat.le_refl i, rfl, fun habs => by simp at habs⟩
        · obtain ⟨h1, h2, h3⟩ := ih (i+1) (acc.push char) j tok h
          exact ⟨Nat.le_of_succ_le h1, h2, h3⟩

/-- If `read_atom_go` is started on a character that is neither in the
error set nor a terminator, it strictly advances the cursor. -/
theorem read_atom_go_advance (fuel selfLine : Nat) (errs chars : List Char)
    (i : Nat) (acc : String) (j : Nat) (tok : Token) (char : Char)
    (hc : chars[i]? = some char) (h1 : char ∉ errs)
    (h2 : pyIsSpace char = false) (h3 : char ∉ ['(', ')', '\n'])
    (h : read_atom_go fuel selfLine errs chars i acc = .ok (j, tok)) : i < j := by
  cases fuel with
  | zero => simp [read_atom_go] at h
  | succ fuel =>
    simp only [read_atom_go, hc, if_neg h1, h2, h3, Bool.false_or,
      decide_eq_true_eq, if_neg, Bool.false_eq_true, if_false] at h
    exact Nat.lt_of_succ_le (read_atom_go_spec fuel selfLine errs chars (i+1) _ j tok h).1

/-- `read_atom_go` fails only by running off the end of the buffer. -/
theorem read_atom_go_error (fuel selfLine : Nat) (errs chars : List Char) :
    ∀ i acc e, read_atom_go fuel selfLine errs chars i acc = .error e →
      e = .outOfBounds := by
  induction fuel with
  | zero =>
    intro i acc e h
    simp only [read_atom_go, Except.error.injEq] at h
    exact h.symm
  | succ fuel ih =>
    intro i acc e h
    cases hc : chars[i]? with
    | none =>
      simp only [read_atom_go, hc, Except.error.injEq] at h
      exact h.symm
    | some char =>
      simp only [read_atom_go, hc] at h
      split at h
      · simp at h
      · split at h
        · simp at h
        · exact ih (i+1) (acc.push char) e h

/-- On success `read_num_go` returns a cursor no smaller than where it
started, a token stamped with `selfLine`, and on its error path the
cursor sits on a character of `num_error_chars`, with the fixed
diagnostic message. -/
theorem read_num_go_spec (fuel selfLine : Nat) (errs chars : List Char) :
    ∀ i acc j tok, read_num_go fuel selfLine errs chars i acc = .ok (j, tok) →
      i ≤ j ∧ tok.line = selfLine ∧
        (tok.type = .ERR →
          tok.value = "Numbers cannot contain anything other than numerals and periods" ∧
            chars[j]? ∈ errs.map some) := by
  induction fuel with
  | zero => intro i acc j tok h; simp [read_num_go] at h
  | succ fuel ih =>
    intro i acc j tok h
    cases hc : chars[i]? with
    | none => simp [read_num_go, hc] at h
    | some char =>
      simp only [read_num_go, hc] at h
      split at h
      · simp only [Except.ok.injEq, Prod.mk.injEq] at h
        obtain ⟨hj, htok⟩ := h
        subst hj; subst htok
        refine ⟨Nat.le_refl i, rfl, fun _ => ⟨rfl, ?_⟩⟩
        rw [hc]
        exact List.mem_map_of_mem some (by assumption)
      · split at h
        · simp only [Except.ok.injEq, Prod.mk.injEq] at h
          obtain ⟨hj, htok⟩ := h
          subst hj; subst htok
          exact ⟨Nat.le_refl i, rfl, fun habs => by simp at habs⟩
        · obtain ⟨h1, h2, h3⟩ := ih (i+1) (acc.push char) j tok h
          exact ⟨Nat.le_of_succ_le h1, h2, h3⟩

/-- If `read_num_go` is started on a character that is neither in the
error set nor a terminator, it strictly advances the cursor. -/
theorem read_num_go_advance (fuel selfLine : Nat) (errs chars : List Char)
    (i : Nat) (acc : String) (j : Nat) (tok : Token) (char : Char)
    (hc : chars[i]? = some char) (h1 : char ∉ errs)
    (h2 : pyIsSpace char = false) (h3 : char ∉ ['(', ')', '\n'])
    (h : read_num_go fuel selfLine errs chars i acc = .ok (j, tok)) : i < j := by
  cases fuel with
  | zero => simp [read_num_go] at h
  | succ fuel =>
    simp only [read_num_go, hc, if_neg h1, h2, h3, Bool.false_or,
      decide_eq_true_eq, if_neg, Bool.false_eq_true, if_false] at h
    exact Nat.lt_of_succ_le (read_num_go_spec fuel selfLine errs chars (i+1) _ j tok h).1

/-- `read_num_go` fails only by running off the end of the buffer. -/
theorem read_num_go_error (fuel selfLine : Nat) (errs chars : List Char) :
    ∀ i acc e, read_num_go fuel selfLine errs chars i acc = .error e →
      e = .outOfBounds := by
  induction fuel with
  | zero =>
    intro i acc e h
    simp only [read_num_go, Except.error.injEq] at h
    exact h.symm
  | succ fuel ih =>
    intro i acc e h
    cases hc : chars[i]? with
    | none =>
      simp only [read_num_go, hc, Except.error.injEq] at h
      exact h.symm
    | some char =>
      simp only [read_num_go, hc] at h
      split at h
      · simp at h
      · split at h
        · simp at h
        · exact ih (i+1) (acc.push char) e h

/-- On success `read_str_go` strictly advances the cursor, only ever
increases the line counter, and stamps the `STR` token with the *final*
value of the line counter, i.e. the value it holds when the closing
quote is found. -/
theorem read_str_go_spec (fuel : Nat) (term : Char) (chars : List Char) :
    ∀ line i acc j tok l2, read_str_go fuel line term chars i acc = .ok (j, tok, l2) →
      i < j ∧ line ≤ l2 ∧ tok.line = l2 ∧ tok.type = .STR := by
  induction fuel with
  | zero => intro line i acc j tok l2 h; simp [read_str_go] at h
  | succ fuel ih =>
    intro line i acc j tok l2 h
    cases hc : chars[i]? with
    | none => simp [read_str_go, hc] at h
    | some char =>
      simp only [read_str_go, hc] at h
      split at h
      · simp only [Except.ok.injEq, Prod.mk.injEq] at h
        obtain ⟨hj, htok, hl⟩ := h
        subst hj; subst htok; subst hl
        exact ⟨Nat.lt_succ_self i, Nat.le_refl line, rfl, rfl⟩
      · split at h
        · obtain ⟨h1, h2, h3, h4⟩ := ih (line+1) (i+1) _ j tok l2 h
          exact ⟨Nat.lt_of_succ_lt h1, Nat.le_of_succ_le h2, h3, h4⟩
        · obtain ⟨h1, h2, h3, h4⟩ := ih line (i+1) _ j tok l2 h
          exact ⟨Nat.lt_of_succ_lt h1, h2, h3, h4⟩

/-- `read_str_go` fails only by running off the end of the buffer. -/
theorem read_str_go_error (fuel : Nat) (term : Char) (chars : List Char) :
    ∀ line i acc e, read_str_go fuel line term chars i acc = .error e →
      e = .outOfBounds := by
  induction fuel with
  | zero =>
    intro line i acc e h
    simp only [read_str_go, Except.error.injEq] at h
    exact h.symm
  | succ fuel ih =>
    intro line i acc e h
    cases hc : chars[i]? with
    | none =>
      simp only [read_str_go, hc, Except.error.injEq] at h
      exact h.symm
    | some char =>
      simp only [read_str_go, hc] at h
      split at h
      · simp at h
      · split at h
        · exact ih (line+1) (i+1) _ e h
        · exact ih line (i+1) _ e h

/-- On success `discard_comment_go` returns an index at or after where
it started, and that index holds a newline. -/
theorem discard_comment_go_spec (fuel : Nat) (chars : List Char) :
    ∀ i j, discard_comment_go fuel chars i = .ok j →
      i ≤ j ∧ chars[j]? = some '\n' := by
  induction fuel with
  | zero => intro i j h; simp [discard_comment_go] at h
  | succ fuel ih =>
    intro i j h
    cases hc : chars[i]? with
    | none => simp [discard_comment_go, hc] at h
    | some char =>
      simp only [discard_comment_go, hc] at h
      split at h
      · obtain ⟨h1, h2⟩ := ih (i+1) j h
        exact ⟨Nat.le_of_succ_le h1, h2⟩
      · rename_i hne
        simp only [Except.ok.injEq] at h
        subst h
        simp only [Decidable.not_not] at hne
        subst hne
        exact ⟨Nat.le_refl i, hc⟩

/-- `discard_comment_go` fails only by running off the end of the
buffer. -/
theorem discard_comment_go_error (fuel : Nat) (chars : List Char) :
    ∀ i e, discard_comment_go fuel chars i = .error e → e = .outOfBounds := by
  induction fuel with
  | zero =>
    intro i e h
    simp only [discard_comment_go, Except.error.injEq] at h
    exact h.symm
  | succ fuel ih =>
    intro i e h
    cases hc : chars[i]? with
    | none =>
      simp only [discard_comment_go, hc, Except.error.injEq] at h
      exact h.symm
    | some char =>
      simp only [discard_comment_go, hc] at h
      split at h
      · exact ih (i+1) e h
      · simp at h

/-! ### Wrapper-level corollaries -/

/-- `read_atom` on success: cursor not moved backwards, token stamped
with `self.line`, and on the error path the cursor sits on an offending
character with the fixed message. -/
theorem read_atom_spec (selfLine : Nat) (errs chars : List Char) (i j : Nat)
    (tok : Token) (h : read_atom selfLine errs chars i = .ok (j, tok)) :
    i ≤ j ∧ tok.line = selfLine ∧
      (tok.type = .ERR →
        tok.value = "Atoms cannot contain quotes or numbers" ∧
          chars[j]? ∈ errs.map some) :=
  read_atom_go_spec (chars.length + 1) selfLine errs chars i "" j tok h

/-- `read_atom` fails only by running off the end of the buffer. -/
theorem read_atom_error (selfLine : Nat) (errs chars : List Char) (i : Nat)
    (e : LexStop) (h : read_atom selfLine errs chars i = .error e) :
    e = .outOfBounds :=
  read_atom_go_error (chars.length + 1) selfLine errs chars i "" e h

/-- `read_num` on success: cursor not moved backwards, token stamped
with `self.line`, and on the error path the cursor sits on an offending
character with the fixed message. -/
theorem read_num_spec (selfLine : Nat) (errs chars : List Char) (i j : Nat)
    (tok : Token) (h : read_num selfLine errs chars i = .ok (j, tok)) :
    i ≤ j ∧ tok.line = selfLine ∧
      (tok.type = .ERR →
        tok.value = "Numbers cannot contain anything other than numerals and periods" ∧
          chars[j]? ∈ errs.map some) :=
  read_num_go_spec (chars.length + 1) selfLine errs chars i "" j tok h

/-- `read_num` fails only by running off the end of the buffer. -/
theorem read_num_error (selfLine : Nat) (errs chars : List Char) (i : Nat)
    (e : LexStop) (h : read_num selfLine errs chars i = .error e) :
    e = .outOfBounds :=
  read_num_go_error (chars.length + 1) selfLine errs chars i "" e h

/-- `read_str` on success strictly advances the cursor, only increases
the line counter, and stamps the token with the final counter value. -/
theorem read_str_spec (selfLine : Nat) (term : Char) (chars : List Char)
    (i j : Nat) (tok : Token) (l2 : Nat)
    (h : read_str selfLine term chars i = .ok (j, tok, l2)) :
    i < j ∧ selfLine ≤ l2 ∧ tok.line = l2 ∧ tok.type = .STR := by
  rw [read_str] at h
  cases hc : chars[i]? with
  | none => rw [hc] at h; exact absurd h (by simp)
  | some char =>
    rw [hc] at h
    obtain ⟨h1, h2, h3, h4⟩ :=
      read_str_go_spec (chars.length + 1) term chars selfLine (i+1) _ j tok l2 h
    exact ⟨Nat.lt_of_succ_lt h1, h2, h3, h4⟩

/-- `read_str` fails only by running off the end of the buffer. -/
theorem read_str_error (selfLine : Nat) (term : Char) (chars : List Char)
    (i : Nat) (e : LexStop) (h : read_str selfLine term chars i = .error e) :
    e = .outOfBounds := by
  rw [read_str] at h
  cases hc : chars[i]? with
  | none =>
    rw [hc] at h
    simp only [Except.error.injEq] at h
    exact h.symm
  | some char =>
    rw [hc] at h
    exact read_str_go_error (chars.length + 1) term chars selfLine (i+1) _ e h

/-- `discard_comment` on success returns an index at or after where it
started, holding a newline. -/
theorem discard_comment_spec (chars : List Char) (i j : Nat)
    (h : discard_comment chars i = .ok j) : i ≤ j ∧ chars[j]? = some '\n' :=
  discard_comment_go_spec (chars.length + 1) chars i j h

/-- `discard_comment` fails only by running off the end of the buffer. -/
theorem discard_comment_error (chars : List Char) (i : Nat) (e : LexStop)
    (h : discard_comment chars i = .error e) : e = .outOfBounds :=
  discard_comment_go_error (chars.length + 1) chars i e h

/-! ### Behaviour of the dispatch loop -/

/-- The dispatch loop can only fail with `outOfBounds` (a sub-scanner
indexed past the end of the buffer) or `fuelOut` (the loop spun without
advancing); it never produces the `hardError` of `Lexer.error`. -/
theorem tokenize_loop_error (fuel : Nat) (chars : List Char) :
    ∀ i line tokens e, tokenize_loop fuel chars i line tokens = .error e →
      e = .outOfBounds ∨ e = .fuelOut := by
  induction fuel with
  | zero =>
    intro i line tokens e h
    simp only [tokenize_loop, Except.error.injEq] at h
    exact Or.inr h.symm
  | succ fuel ih =>
    intro i line tokens e h
    cases hc : chars[i]? with
    | none => simp [tokenize_loop, hc] at h
    | some char =>
      simp only [tokenize_loop, hc] at h
      split at h
      · exact ih _ _ _ _ h
      · split at h
        · exact ih _ _ _ _ h
        · split at h
          · split at h
            · rename_i e0 hd
              simp only [Except.error.injEq] at h
              subst h
              exact Or.inl (discard_comment_error chars i e0 hd)
            · exact ih _ _ _ _ h
          · split at h
            · exact ih _ _ _ _ h
            · split at h
              · exact ih _ _ _ _ h
              · split at h
                · exact ih _ _ _ _ h
                · split at h
                  · split at h
                    · rename_i e0 hd
                      simp only [Except.error.injEq] at h
                      subst h
                      exact Or.inl (read_atom_error _ _ chars i e0 hd)
                    · exact ih _ _ _ _ h
                  · split at h
                    · split at h
                      · rename_i e0 hd
                        simp only [Except.error.injEq] at h
                        subst h
                        exact Or.inl (read_str_error _ _ chars i e0 hd)
                      · exact ih _ _ _ _ h
                    · split at h
                      · split at h
                        · rename_i e0 hd
                          simp only [Except.error.injEq] at h
                          subst h
                          exact Or.inl (read_num_error _ _ chars i e0 hd)
                        · exact ih _ _ _ _ h
                      · exact ih _ _ _ _ h

/-- Appending a token whose stamp lies between the old and the new value
of the line counter preserves the emission invariants: all stamps are
bounded by the counter and pairwise non-decreasing. -/
theorem emit_invariant (acc : List Token) (tok : Token) (line line2 : Nat)
    (hb : ∀ t ∈ acc, t.line ≤ line)
    (hp : List.Pairwise (fun a b => a.line ≤ b.line) acc)
    (hll : line ≤ line2) (htl : line ≤ tok.line) (htl2 : tok.line ≤ line2) :
    (∀ t ∈ acc ++ [tok], t.line ≤ line2) ∧
      List.Pairwise (fun a b => a.line ≤ b.line) (acc ++ [tok]) := by
  constructor
  · intro t ht
    rcases List.mem_append.1 ht with h | h
    · exact Nat.le_trans (hb t h) hll
    · simp only [List.mem_singleton] at h
      subst h
      exact htl2
  · rw [List.pairwise_append]
    refine ⟨hp, List.pairwise_singleton _ _, ?_⟩
    intro a ha b hbm
    simp only [List.mem_singleton] at hbm
    subst hbm
    exact Nat.le_trans (hb a ha) htl

/-- Invariant of the dispatch loop: the line counter never decreases,
every emitted stamp is bounded by the final counter, and stamps are
pairwise non-decreasing in emission order. -/
theorem tokenize_loop_lines (fuel : Nat) (chars : List Char) :
    ∀ i line acc ts l2, tokenize_loop fuel chars i line acc = .ok (ts, l2) →
      (∀ t ∈ acc, t.line ≤ line) →
      List.Pairwise (fun a b => a.line ≤ b.line) acc →
      line ≤ l2 ∧ (∀ t ∈ ts, t.line ≤ l2) ∧
        List.Pairwise (fun a b => a.line ≤ b.line) ts := by
  induction fuel with
  | zero => intro i line acc ts l2 h _ _; simp [tokenize_loop] at h
  | succ fuel ih =>
    intro i line acc ts l2 h hb hp
    cases hc : chars[i]? with
    | none =>
      simp only [tokenize_loop, hc, Except.ok.injEq, Prod.mk.injEq] at h
      obtain ⟨hts, hl⟩ := h
      subst hts; subst hl
      exact ⟨Nat.le_refl line, hb, hp⟩
    | some char =>
      simp only [tokenize_loop, hc] at h
      split at h
      · obtain ⟨h1, h2, h3⟩ :=
          ih _ _ _ _ _ h (fun t ht => Nat.le_succ_of_le (hb t ht)) hp
        exact ⟨Nat.le_of_succ_le h1, h2, h3⟩
      · split at h
        · exact ih _ _ _ _ _ h hb hp
        · split at h
          · split at h
            · simp at h
            · exact ih _ _ _ _ _ h hb hp
          · split at h
            · obtain ⟨hb2, hp2⟩ := emit_invariant acc
                { type := .PAREN_OPEN, value := "(", line := line } line line hb hp
                (Nat.le_refl line) (Nat.le_refl line) (Nat.le_refl line)
              exact ih _ _ _ _ _ h hb2 hp2
            · split at h
              · obtain ⟨hb2, hp2⟩ := emit_invariant acc
                  { type := .PAREN_CLOSE, value := ")", line := line } line line hb hp
                  (Nat.le_refl line) (Nat.le_refl line) (Nat.le_refl line)
                exact ih _ _ _ _ _ h hb2 hp2
              · split at h
                · obtain ⟨hb2, hp2⟩ := emit_invariant acc
                    { type := .ATOM, value := String.mk [singleQuote], line := line }
                    line line hb hp
                    (Nat.le_refl line) (Nat.le_refl line) (Nat.le_refl line)
                  exact ih _ _ _ _ _ h hb2 hp2
                · split at h
                  · split at h
                    · simp at h
                    · rename_i j tok hd
                      have hs := read_atom_spec _ _ chars i j tok hd
                      obtain ⟨hb2, hp2⟩ := emit_invariant acc tok line line hb hp
                        (Nat.le_refl line) (Nat.le_of_eq hs.2.1.symm)
                        (Nat.le_of_eq hs.2.1)
                      exact ih _ _ _ _ _ h hb2 hp2
                  · split at h
                    · split at h
                      · simp at h
                      · rename_i j tok line2 hd
                        have hs := read_str_spec _ _ chars i j tok line2 hd
                        obtain ⟨hb2, hp2⟩ := emit_invariant acc tok line line2 hb hp
                          hs.2.1 (Nat.le_trans hs.2.1 (Nat.le_of_eq hs.2.2.1.symm))
                          (Nat.le_of_eq hs.2.2.1)
                        obtain ⟨h1, h2, h3⟩ := ih _ _ _ _ _ h hb2 hp2
                        exact ⟨Nat.le_trans hs.2.1 h1, h2, h3⟩
                    · split at h
                      · split at h
                        · simp at h
                        · rename_i j tok hd
                          have hs := read_num_spec _ _ chars i j tok hd
                          obtain ⟨hb2, hp2⟩ := emit_invariant acc tok line line hb hp
                            (Nat.le_refl line) (Nat.le_of_eq hs.2.1.symm)
                            (Nat.le_of_eq hs.2.1)
                          exact ih _ _ _ _ _ h hb2 hp2
                      · exact ih _ _ _ _ _ h hb hp

/-- Every character of `atom_start_chars` is a legitimate first
character for `read_atom`: not in its error set, not whitespace, not a
parenthesis or newline. -/
theorem atom_start_ok : ∀ c ∈ atom_start_chars,
    c ∉ (str_start_chars ++ num_start_chars) ∧ pyIsSpace c = false ∧
      c ∉ ['(', ')', '\n'] := by decide

/-- Every digit is a legitimate first character for `read_num`: not in
its error set, not whitespace, not a parenthesis or newline. -/
theorem num_start_ok : ∀ c ∈ num_start_chars,
    c ∉ (atom_start_chars ++ str_start_chars) ∧ pyIsSpace c = false ∧
      c ∉ ['(', ')', '\n'] := by decide

/-- The period also legitimately starts `read_atom`. -/
theorem period_start_ok :
    ('.' : Char) ∉ (str_start_chars ++ num_start_chars) ∧ pyIsSpace '.' = false ∧
      ('.' : Char) ∉ ['(', ')', '\n'] := by decide

/-- If every character of the buffer is matched by some dispatch rule,
the dispatch loop never exhausts an iteration budget exceeding the
number of unread characters: every completed iteration resumes with a
strictly larger cursor. -/
theorem tokenize_loop_fuel (fuel : Nat) (chars : List Char)
    (hcl : ∀ c ∈ chars, classified c = true) :
    ∀ i line acc, chars.length - i < fuel →
      tokenize_loop fuel chars i line acc ≠ .error .fuelOut := by
  induction fuel with
  | zero => intro i line acc hf; omega
  | succ fuel ih =>
    intro i line acc hf h
    cases hc : chars[i]? with
    | none => simp [tokenize_loop, hc] at h
    | some char =>
      have hlen : i < chars.length := by
        by_contra hn
        rw [List.getElem?_eq_none (Nat.le_of_not_lt hn)] at hc
        exact absurd hc (by simp)
      simp only [tokenize_loop, hc] at h
      split at h
      · exact ih (i+1) (line+1) acc (by omega) h
      · split at h
        · exact ih (i+1) line acc (by omega) h
        · split at h
          · rename_i hsemi
            split at h
            · rename_i e0 hd
              have := discard_comment_error chars i e0 hd
              subst this
              simp at h
            · rename_i j hd
              obtain ⟨hij, hj⟩ := discard_comment_spec chars i j hd
              have hjlt : j < chars.length := by
                by_contra hn
                rw [List.getElem?_eq_none (Nat.le_of_not_lt hn)] at hj
                exact absurd hj (by simp)
              have hstrict : i < j := by
                rcases Nat.lt_or_ge i j with hlt | hge
                · exact hlt
                · have : i = j := Nat.le_antisymm hij (Nat.le_of_not_lt (by omega))
                  subst this
                  rw [hc] at hj
                  simp only [Option.some.injEq] at hj
                  subst hsemi
                  exact absurd hj (by decide)
              exact ih j line acc (by omega) h
          · split at h
            · exact ih (i+1) line _ (by omega) h
            · split at h
              · exact ih (i+1) line _ (by omega) h
              · split at h
                · exact ih (i+1) line _ (by omega) h
                · split at h
                  · rename_i hcond
                    split at h
                    · rename_i e0 hd
                      have := read_atom_error _ _ chars i e0 hd
                      subst this
                      simp at h
                    · rename_i j tok hd
                      obtain ⟨hf1, hf2, hf3⟩ : char ∉ (str_start_chars ++ num_start_chars) ∧
                          pyIsSpace char = false ∧ char ∉ ['(', ')', '\n'] := by
                        rcases hcond with hm | hdot
                        · exact atom_start_ok char hm
                        · subst hdot
                          exact period_start_ok
                      rw [read_atom] at hd
                      have hstrict := read_atom_go_advance (chars.length + 1) line
                        (str_start_chars ++ num_start_chars) chars i "" j tok char
                        hc hf1 hf2 hf3 hd
                      exact ih j line _ (by omega) h
                  · split at h
                    · split at h
                      · rename_i e0 hd
                        have := read_str_error _ _ chars i e0 hd
                        subst this
                        simp at h
                      · rename_i j tok line2 hd
                        have hstrict := (read_str_spec _ _ chars i j tok line2 hd).1
                        exact ih j line2 _ (by omega) h
                    · split at h
                      · rename_i hcond
                        split at h
                        · rename_i e0 hd
                          have := read_num_error _ _ chars i e0 hd
                          subst this
                          simp at h
                        · rename_i j tok hd
                          obtain ⟨hf1, hf2, hf3⟩ := num_start_ok char hcond
                          rw [read_num] at hd
                          have hstrict := read_num_go_advance (chars.length + 1) line
                            (atom_start_chars ++ str_start_chars) chars i "" j tok char
                            hc hf1 hf2 hf3 hd
                          exact ih j line _ (by omega) h
                      · rename_i hn1 hn2 hn3 hn4 hn5 hn6 hn7 hn8 hn9
                        have hclc := hcl char (List.getElem?_mem hc)
                        simp only [classified, Bool.or_eq_true, beq_iff_eq,
                          decide_eq_true_eq] at hclc
                        rcases hclc with ((((((((hx | hx) | hx) | hx) | hx) | hx) | hx) | hx) | hx) | hx
                        · exact hn1 hx
                        · exact hn2 hx
                        · exact hn3 hx
                        · exact hn4 hx
                        · exact hn5 hx
                        · exact hn6 hx
                        · exact hn7 (Or.inl hx)
                        · exact hn7 (Or.inr hx)
                        · exact hn8 hx
                        · exact hn9 hx

/-- Composing two list-prepending maps over an `Except` result. -/
theorem except_map_append (r : Except LexStop (List Token × Nat))
    (xs ys : List Token) :
    (r.map (fun p => (xs ++ p.1, p.2))).map (fun p => (ys ++ p.1, p.2)) =
      r.map (fun p => ((ys ++ xs) ++ p.1, p.2)) := by
  cases r <;> simp [Except.map, List.append_assoc]

/-- The accumulated token list is threaded through the dispatch loop
untouched: a run started with accumulator `acc` returns `acc` followed
by exactly the tokens a run started empty would return. -/
theorem tokenize_loop_append (fuel : Nat) (chars : List Char) :
    ∀ i line acc, tokenize_loop fuel chars i line acc =
      (tokenize_loop fuel chars i line []).map (fun p => (acc ++ p.1, p.2)) := by
  induction fuel with
  | zero => intro i line acc; rfl
  | succ fuel ih =>
    intro i line acc
    cases hc : chars[i]? with
    | none => simp [tokenize_loop, hc, Except.map]
    | some char =>
      simp only [tokenize_loop, hc, List.nil_append]
      split
      · exact ih (i+1) (line+1) acc
      · split
        · exact ih (i+1) line acc
        · split
          · split
            · simp [Except.map]
            · exact ih _ line acc
          · split
            · rw [ih (i+1) line (acc ++ _), ih (i+1) line [_], except_map_append]
            · split
              · rw [ih (i+1) line (acc ++ _), ih (i+1) line [_], except_map_append]
              · split
                · rw [ih (i+1) line (acc ++ _), ih (i+1) line [_], except_map_append]
                · split
                  · split
                    · simp [Except.map]
                    · rw [ih _ line (acc ++ _), ih _ line [_], except_map_append]
                  · split
                    · split
                      · simp [Except.map]
                      · rw [ih _ _ (acc ++ _), ih _ _ [_], except_map_append]
                    · split
                      · split
                        · simp [Except.map]
                        · rw [ih _ line (acc ++ _), ih _ line [_], except_map_append]
                      · exact ih i line acc

/-- Starting `read_atom_go` with the line counter shifted by `d` shifts
the stamp of the returned token by `d` and changes nothing else. -/
theorem read_atom_go_shift (fuel : Nat) (errs chars : List Char) (d : Nat) :
    ∀ selfLine i acc, read_atom_go fuel (selfLine + d) errs chars i acc =
      (read_atom_go fuel selfLine errs chars i acc).map
        (fun p => (p.1, shiftToken d p.2)) := by
  induction fuel with
  | zero => intro selfLine i acc; rfl
  | succ fuel ih =>
    intro selfLine i acc
    cases hc : chars[i]? with
    | none => simp [read_atom_go, hc, Except.map]
    | some char =>
      simp only [read_atom_go, hc]
      split
      · simp [Except.map, shiftToken]
      · split
        · simp [Except.map, shiftToken]
        · exact ih selfLine (i+1) (acc.push char)

/-- Starting `read_num_go` with the line counter shifted by `d` shifts
the stamp of the returned token by `d` and changes nothing else. -/
theorem read_num_go_shift (fuel : Nat) (errs chars : List Char) (d : Nat) :
    ∀ selfLine i acc, read_num_go fuel (selfLine + d) errs chars i acc =
      (read_num_go fuel selfLine errs chars i acc).map
        (fun p => (p.1, shiftToken d p.2)) := by
  induction fuel with
  | zero => intro selfLine i acc; rfl
  | succ fuel ih =>
    intro selfLine i acc
    cases hc : chars[i]? with
    | none => simp [read_num_go, hc, Except.map]
    | some char =>
      simp only [read_num_go, hc]
      split
      · simp [Except.map, shiftToken]
      · split
        · simp [Except.map, shiftToken]
        · exact ih selfLine (i+1) (acc.push char)

/-- Starting `read_str_go` with the line counter shifted by `d` shifts
both the token stamp and the returned counter by `d`. -/
theorem read_str_go_shift (fuel : Nat) (term : Char) (chars : List Char) (d : Nat) :
    ∀ line i acc, read_str_go fuel (line + d) term chars i acc =
      (read_str_go fuel line term chars i acc).map
        (fun r => (r.1, shiftToken d r.2.1, r.2.2 + d)) := by
  induction fuel with
  | zero => intro line i acc; rfl
  | succ fuel ih =>
    intro line i acc
    cases hc : chars[i]? with
    | none => simp [read_str_go, hc, Except.map]
    | some char =>
      simp only [read_str_go, hc]
      split
      · simp [Except.map, shiftToken]
      · split
        · rw [Nat.add_right_comm line d 1]
          exact ih (line+1) (i+1) (acc.push char)
        · exact ih line (i+1) (acc.push char)

/-- Line-shift for the `read_atom` wrapper. -/
theorem read_atom_shift (selfLine d : Nat) (errs chars : List Char) (i : Nat) :
    read_atom (selfLine + d) errs chars i =
      (read_atom selfLine errs chars i).map (fun p => (p.1, shiftToken d p.2)) :=
  read_atom_go_shift (chars.length + 1) errs chars d selfLine i ""

/-- Line-shift for the `read_num` wrapper. -/
theorem read_num_shift (selfLine d : Nat) (errs chars : List Char) (i : Nat) :
    read_num (selfLine + d) errs chars i =
      (read_num selfLine errs chars i).map (fun p => (p.1, shiftToken d p.2)) :=
  read_num_go_shift (chars.length + 1) errs chars d selfLine i ""

/-- Line-shift for the `read_str` wrapper. -/
theorem read_str_shift (selfLine d : Nat) (term : Char) (chars : List Char) (i : Nat) :
    read_str (selfLine + d) term chars i =
      (read_str selfLine term chars i).map
        (fun r => (r.1, shiftToken d r.2.1, r.2.2 + d)) := by
  rw [read_str, read_str]
  cases hc : chars[i]? with
  | none => rfl
  | some char => exact read_str_go_shift (chars.length + 1) term chars d selfLine (i+1) _

/-- Pushing one shifted token onto a shifted accumulator. -/
theorem map_shift_append (d : Nat) (acc : List Token) (tok : Token) :
    acc.map (shiftToken d) ++ [shiftToken d tok] = (acc ++ [tok]).map (shiftToken d) := by
  rw [List.map_append, List.map_cons, List.map_nil]

/-- Running the dispatch loop with the line counter started `d` higher
(and an accumulator whose stamps are shifted accordingly) yields the
same tokens with every line stamp shifted by `d`, and a final counter
shifted by `d`: the counter only ever enters the output as the stamp of
emitted tokens. -/
theorem tokenize_loop_shift (fuel : Nat) (chars : List Char) (d : Nat) :
    ∀ i line acc, tokenize_loop fuel chars i (line + d) (acc.map (shiftToken d)) =
      (tokenize_loop fuel chars i line acc).map
        (fun p => (p.1.map (shiftToken d), p.2 + d)) := by
  induction fuel with
  | zero => intro i line acc; rfl
  | succ fuel ih =>
    intro i line acc
    cases hc : chars[i]? with
    | none => simp [tokenize_loop, hc, Except.map]
    | some char =>
      conv_lhs => simp only [tokenize_loop, hc]
      conv_rhs => simp only [tokenize_loop, hc]
      by_cases h1 : char = '\n'
      · rw [if_pos h1, if_pos h1, Nat.add_right_comm line d 1]
        exact ih (i+1) (line+1) acc
      · by_cases h2 : pyIsSpace char = true
        · rw [if_neg h1, if_neg h1, if_pos h2, if_pos h2]
          exact ih (i+1) line acc
        · by_cases h3 : char = ';'
          · rw [if_neg h1, if_neg h1, if_neg h2, if_neg h2, if_pos h3, if_pos h3]
            cases hd : discard_comment chars i with
            | error e => rfl
            | ok j => exact ih j line acc
          · by_cases h4 : char = '('
            · rw [if_neg h1, if_neg h1, if_neg h2, if_neg h2, if_neg h3, if_neg h3,
                if_pos h4, if_pos h4]
              have step := ih (i+1) line
                (acc ++ [({ type := .PAREN_OPEN, value := "(", line := line } : Token)])
              rw [← map_shift_append] at step
              exact step
            · by_cases h5 : char = ')'
              · rw [if_neg h1, if_neg h1, if_neg h2, if_neg h2, if_neg h3, if_neg h3,
                  if_neg h4, if_neg h4, if_pos h5, if_pos h5]
                have step := ih (i+1) line
                  (acc ++ [({ type := .PAREN_CLOSE, value := ")", line := line } : Token)])
                rw [← map_shift_append] at step
                exact step
              · by_cases h6 : char = singleQuote
                · rw [if_neg h1, if_neg h1, if_neg h2, if_neg h2, if_neg h3, if_neg h3,
                    if_neg h4, if_neg h4, if_neg h5, if_neg h5, if_pos h6, if_pos h6]
                  have step := ih (i+1) line
                    (acc ++ [({ type := .ATOM, value := String.mk [singleQuote], line := line } : Token)])
                  rw [← map_shift_append] at step
                  exact step
                · by_cases h7 : char ∈ atom_start_chars ∨ char = '.'
                  · rw [if_neg h1, if_neg h1, if_neg h2, if_neg h2, if_neg h3, if_neg h3,
                      if_neg h4, if_neg h4, if_neg h5, if_neg h5, if_neg h6, if_neg h6,
                      if_pos h7, if_pos h7,
                      read_atom_shift line d (str_start_chars ++ num_start_chars) chars i]
                    cases hr : read_atom line (str_start_chars ++ num_start_chars) chars i with
                    | error e => rfl
                    | ok p =>
                      obtain ⟨j, tok⟩ := p
                      dsimp only [Except.map]
                      rw [map_shift_append]
                      exact ih j line (acc ++ [tok])
                  · by_cases h8 : char ∈ str_start_chars
                    · rw [if_neg h1, if_neg h1, if_neg h2, if_neg h2, if_neg h3, if_neg h3,
                        if_neg h4, if_neg h4, if_neg h5, if_neg h5, if_neg h6, if_neg h6,
                        if_neg h7, if_neg h7, if_pos h8, if_pos h8,
                        read_str_shift line d char chars i]
                      cases hr : read_str line char chars i with
                      | error e => rfl
                      | ok r =>
                        obtain ⟨j, tok, l2⟩ := r
                        dsimp only [Except.map]
                        rw [map_shift_append]
                        exact ih j l2 (acc ++ [tok])
                    · by_cases h9 : char ∈ num_start_chars
                      · rw [if_neg h1, if_neg h1, if_neg h2, if_neg h2, if_neg h3, if_neg h3,
                          if_neg h4, if_neg h4, if_neg h5, if_neg h5, if_neg h6, if_neg h6,
                          if_neg h7, if_neg h7, if_neg h8, if_neg h8, if_pos h9, if_pos h9,
                          read_num_shift line d (atom_start_chars ++ str_start_chars) chars i]
                        cases hr : read_num line (atom_start_chars ++ str_start_chars) chars i with
                        | error e => rfl
                        | ok p =>
                          obtain ⟨j, tok⟩ := p
                          dsimp only [Except.map]
                          rw [map_shift_append]
                          exact ih j line (acc ++ [tok])
                      · rw [if_neg h1, if_neg h1, if_neg h2, if_neg h2, if_neg h3, if_neg h3,
                          if_neg h4, if_neg h4, if_neg h5, if_neg h5, if_neg h6, if_neg h6,
                          if_neg h7, if_neg h7, if_neg h8, if_neg h8, if_neg h9, if_neg h9]
                        exact ih i line acc

/-- Destructuring a successful `tokenize` call: the loop succeeded with
the same token list, and the returned state keeps `text` and `pos`, and
records the final line and tokens. -/
theorem tokenize_ok (l : Lexer) (ts : List Token) (l2 : Lexer)
    (h : tokenize l = .ok (ts, l2)) :
    ∃ ln, tokenize_loop (l.text.data.length + 1) l.text.data 0 l.line l.tokens =
        .ok (ts, ln) ∧ l2 = { l with line := ln, tokens := ts } := by
  cases hres : tokenize_loop (l.text.data.length + 1) l.text.data 0 l.line l.tokens with
  | error e =>
    simp only [tokenize, hres] at h
    exact absurd h (by simp)
  | ok p =>
    obtain ⟨ts0, ln⟩ := p
    simp only [tokenize, hres, Except.ok.injEq, Prod.mk.injEq] at h
    obtain ⟨h1, h2⟩ := h
    subst h1
    exact ⟨ln, rfl, h2.symm⟩


/-! ### The claims -/

/-- Claim C1 (corrected).  The claim says a multi-line string token is
stamped with the line counter value held when the String Scanner was
invoked (its start line).  In the source, `read_str` stamps the token
with `self.line` at the moment the closing quote is found, i.e. after
the mid-token newline increments: the token of a string with one
embedded newline starting on line 1 carries `line == 2`, the counter
value at its end.  First conjunct: every successful `read_str_go` run
stamps its token with the final counter value, which is at least the
starting value.  Second conjunct: the concrete buffer of the claim
yields a single `STR` token stamped 2, with the final counter 2. -/
theorem multiline_str_line_stamp :
    (∀ fuel term chars line i acc j tok l2,
        read_str_go fuel line term chars i acc = .ok (j, tok, l2) →
          tok.line = l2 ∧ line ≤ l2) ∧
      tokenize (mkLexer "\"hello\nworld\"") =
        .ok ([{ type := .STR, value := "\"hello\nworld\"", line := 2 }],
             { text := "\"hello\nworld\"", pos := 0, line := 2,
               tokens := [{ type := .STR, value := "\"hello\nworld\"", line := 2 }] }) := by
  constructor
  · intro fuel term chars line i acc j tok l2 h
    have hs := read_str_go_spec fuel term chars line i acc j tok l2 h
    exact ⟨hs.2.2.1, hs.2.1⟩
  · rfl

/-- Witness for C1: a concrete multi-line string scan, started with the
counter at 2, returns its token stamped with the final counter 3. -/
theorem multiline_str_line_stamp_witness :
    ({ type := TokenType.STR, value := "\"a\nb\"", line := 3 } : Token).line = 3 ∧ 2 ≤ 3 :=
  multiline_str_line_stamp.1 5 '"' ("a\nb\"".data) 2 0 "\"" 4
    { type := TokenType.STR, value := "\"a\nb\"", line := 3 } 3 (by rfl)

/-- Counterexample for C1: scanning the claimed buffer yields one token
whose line stamp is 2, not the claimed 1. -/
theorem multiline_str_line_stamp_cx :
    (tokenize (mkLexer "\"hello\nworld\"")).toOption.map (fun p => p.1.map Token.line) =
        some [2] ∧
      (tokenize (mkLexer "\"hello\nworld\"")).toOption.map (fun p => p.1.map Token.line) ≠
        some [1] := by
  constructor
  · rfl
  · decide

/-- Claim C2 (corrected).  The claim says scanning the exact buffer
`42` yields one `NUM` token.  In the source, `read_num` never checks
for end of buffer: with no terminating character after the digits it
indexes past the end and the scan dies with an `IndexError`.  The
nearest terminated buffer `42\n` yields exactly `[NUM 42]`. -/
theorem scan_42_amended :
    tokenize (mkLexer "42\n") =
      .ok ([{ type := .NUM, value := "42", line := 1 }],
           { text := "42\n", pos := 0, line := 2,
             tokens := [{ type := .NUM, value := "42", line := 1 }] }) := by
  rfl

/-- Counterexample for C2: the exact buffer `42` makes the Number
Scanner run off the end of the buffer instead of returning a token. -/
theorem scan_42_cx : tokenize (mkLexer "42") = .error .outOfBounds := by
  rfl

/-- Claim C3 (corrected).  The claim says scanning `4a` yields exactly
one `ERR` token.  In the source the Number Scanner errors at `a`
without advancing, the dispatcher appends the `ERR` token and
re-dispatches at the same cursor into the Atom Scanner, which runs off
the end of the buffer: the exact buffer `4a` dies out-of-bounds.  The
nearest terminated buffer `4a\n` yields two tokens: the `ERR` token
with the claimed message, followed by `ATOM a` re-scanned from the
offending character. -/
theorem scan_4a_amended :
    tokenize (mkLexer "4a\n") =
      .ok ([{ type := .ERR,
              value := "Numbers cannot contain anything other than numerals and periods",
              line := 1 },
            { type := .ATOM, value := "a", line := 1 }],
           { text := "4a\n", pos := 0, line := 2,
             tokens := [{ type := .ERR,
                          value := "Numbers cannot contain anything other than numerals and periods",
                          line := 1 },
                        { type := .ATOM, value := "a", line := 1 }] }) := by
  rfl

/-- Counterexample for C3: the exact buffer `4a` makes the scan die
out-of-bounds; it does not return a one-token sequence. -/
theorem scan_4a_cx : tokenize (mkLexer "4a") = .error .outOfBounds := by
  rfl

/-- Claim C4 (confirmed).  For every lexer state (hence every input
buffer), `tokenize` never fails with the hard failure raised by
`Lexer.error`: malformed input surfaces only as `ERR` tokens in the
output, or as the out-of-bounds / divergence behaviours modelled by the
other two `LexStop` values. -/
theorem tokenize_never_hard_error (l l2 : Lexer) (message : String) :
    tokenize l ≠ .error (Lexer.error l2 message) := by
  intro h
  cases hres : tokenize_loop (l.text.data.length + 1) l.text.data 0 l.line l.tokens with
  | error e =>
    simp only [tokenize, hres] at h
    simp only [Except.error.injEq] at h
    rcases tokenize_loop_error _ _ _ _ _ _ hres with ho | ho <;>
      simp [ho, Lexer.error] at h
  | ok p =>
    obtain ⟨ts, ln⟩ := p
    simp only [tokenize, hres] at h
    exact absurd h (by simp)

/-- Witness for C4 on a concrete buffer and message. -/
theorem tokenize_never_hard_error_witness :
    tokenize (mkLexer "(a)") ≠ .error (Lexer.error (mkLexer "(a)") "boom") :=
  tokenize_never_hard_error (mkLexer "(a)") (mkLexer "(a)") "boom"

/-- Claim C5 (confirmed).  On the error paths of the Atom Scanner and
the Number Scanner, the returned cursor is not moved backwards and is
left exactly on a character of the respective error set (the offending
character is not consumed), while the `ERR` token carries the fixed
message of that scanner. -/
theorem error_cursor_unmoved :
    (∀ selfLine errs chars i j tok, read_atom selfLine errs chars i = .ok (j, tok) →
        tok.type = .ERR →
          i ≤ j ∧ tok.value = "Atoms cannot contain quotes or numbers" ∧
            chars[j]? ∈ errs.map some) ∧
      (∀ selfLine errs chars i j tok, read_num selfLine errs chars i = .ok (j, tok) →
        tok.type = .ERR →
          i ≤ j ∧
            tok.value = "Numbers cannot contain anything other than numerals and periods" ∧
            chars[j]? ∈ errs.map some) := by
  constructor
  · intro selfLine errs chars i j tok h ht
    obtain ⟨h1, _, h3⟩ := read_atom_spec selfLine errs chars i j tok h
    exact ⟨h1, (h3 ht).1, (h3 ht).2⟩
  · intro selfLine errs chars i j tok h ht
    obtain ⟨h1, _, h3⟩ := read_num_spec selfLine errs chars i j tok h
    exact ⟨h1, (h3 ht).1, (h3 ht).2⟩

/-- Witness for C5: scanning the atom `a1` errors with the cursor left
on the digit at index 1, and scanning the number `1a` errors with the
cursor left on the letter at index 1. -/
theorem error_cursor_unmoved_witness :
    (0 ≤ 1 ∧
        ({ type := TokenType.ERR, value := "Atoms cannot contain quotes or numbers",
            line := 1 } : Token).value = "Atoms cannot contain quotes or numbers" ∧
        ("a1".data)[1]? ∈ (str_start_chars ++ num_start_chars).map some) ∧
      (0 ≤ 1 ∧
        ({ type := TokenType.ERR,
            value := "Numbers cannot contain anything other than numerals and periods",
            line := 1 } : Token).value =
          "Numbers cannot contain anything other than numerals and periods" ∧
        ("1a".data)[1]? ∈ (atom_start_chars ++ str_start_chars).map some) :=
  ⟨error_cursor_unmoved.1 1 (str_start_chars ++ num_start_chars) ("a1".data) 0 1
      { type := TokenType.ERR, value := "Atoms cannot contain quotes or numbers", line := 1 }
      (by rfl) (by rfl),
    error_cursor_unmoved.2 1 (atom_start_chars ++ str_start_chars) ("1a".data) 0 1
      { type := TokenType.ERR,
        value := "Numbers cannot contain anything other than numerals and periods", line := 1 }
      (by rfl) (by rfl)⟩

/-- Claim C6 (confirmed).  The Comment Skipper stops exactly on the
newline (index 9) without emitting a token, the dispatcher newline rule
then increments the line counter once, and the buffer of the claim
yields exactly `ParenOpen`, `Atom a`, `ParenClose`, each on line 2. -/
theorem comment_example :
    discard_comment ("; comment\n(a)".data) 0 = .ok 9 ∧
      tokenize (mkLexer "; comment\n(a)") =
        .ok ([{ type := .PAREN_OPEN, value := "(", line := 2 },
              { type := .ATOM, value := "a", line := 2 },
              { type := .PAREN_CLOSE, value := ")", line := 2 }],
             { text := "; comment\n(a)", pos := 0, line := 2,
               tokens := [{ type := .PAREN_OPEN, value := "(", line := 2 },
                          { type := .ATOM, value := "a", line := 2 },
                          { type := .PAREN_CLOSE, value := ")", line := 2 }] }) :=
  ⟨by rfl, by rfl⟩

/-- Claim C7 (confirmed).  Whenever scanning a fresh buffer returns a
token sequence, the line stamps are monotonically non-decreasing in
emission order: every token's stamp is at least the stamp of every
earlier token. -/
theorem token_lines_monotone (text : String) (ts : List Token) (l2 : Lexer)
    (h : tokenize (mkLexer text) = .ok (ts, l2)) :
    List.Pairwise (fun a b => a.line ≤ b.line) ts := by
  obtain ⟨ln, hloop, _⟩ := tokenize_ok _ _ _ h
  simp only [mkLexer] at hloop
  exact (tokenize_loop_lines _ _ _ _ _ _ _ hloop (by simp) (by simp)).2.2

/-- Witness for C7 on the buffer `(a)`. -/
theorem token_lines_monotone_witness :
    List.Pairwise (fun (a b : Token) => a.line ≤ b.line)
      [{ type := TokenType.PAREN_OPEN, value := "(", line := 1 },
       { type := TokenType.ATOM, value := "a", line := 1 },
       { type := TokenType.PAREN_CLOSE, value := ")", line := 1 }] :=
  token_lines_monotone "(a)"
    [{ type := TokenType.PAREN_OPEN, value := "(", line := 1 },
     { type := TokenType.ATOM, value := "a", line := 1 },
     { type := TokenType.PAREN_CLOSE, value := ")", line := 1 }]
    { text := "(a)", pos := 0, line := 1,
      tokens := [{ type := TokenType.PAREN_OPEN, value := "(", line := 1 },
                 { type := TokenType.ATOM, value := "a", line := 1 },
                 { type := TokenType.PAREN_CLOSE, value := ")", line := 1 }] }
    (by rfl)

/-- Claim C8 (confirmed).  Two fresh lexer instances over the same
buffer produce identical results: the scan is a pure function of the
constructed state, and the module has no mutable global state (the
embedding of the source is a pure function, which is the faithful
rendering of a Python module whose only state lives in the instance). -/
theorem tokenize_deterministic (text : String) (l1 l2 : Lexer)
    (h1 : l1 = mkLexer text) (h2 : l2 = mkLexer text) :
    tokenize l1 = tokenize l2 := by
  subst h1
  subst h2
  rfl

/-- Witness for C8 on the buffer `(foo)`. -/
theorem tokenize_deterministic_witness :
    tokenize (mkLexer "(foo)") = tokenize (mkLexer "(foo)") :=
  tokenize_deterministic "(foo)" (mkLexer "(foo)") (mkLexer "(foo)") rfl rfl

/-- Claim C9 (corrected).  `tokenize` resets neither `self.tokens` nor
`self.line`, so a second call on the same instance re-scans the buffer,
appends a shifted copy of the first pass (every line stamp moved up by
the newlines counted in the first pass) and returns the concatenation.
The claim's further assertion that the second call *always* differs
from the first fails on any buffer that yields no tokens (e.g. the
empty buffer); it holds as soon as the first call emitted at least one
token, which is the amendment. -/
theorem tokenize_twice (text : String) (ts1 : List Token) (l1 : Lexer)
    (h : tokenize (mkLexer text) = .ok (ts1, l1)) :
    tokenize l1 =
      .ok (ts1 ++ ts1.map (shiftToken (l1.line - 1)),
           { text := text, pos := 0, line := l1.line + (l1.line - 1),
             tokens := ts1 ++ ts1.map (shiftToken (l1.line - 1)) }) ∧
      (ts1 ≠ [] → tokenize l1 ≠ .ok (ts1, l1)) := by
  obtain ⟨ln, hloop, hl2⟩ := tokenize_ok _ _ _ h
  simp only [mkLexer] at hloop hl2
  have hln : 1 ≤ ln := (tokenize_loop_lines _ _ _ _ _ _ _ hloop (by simp) (by simp)).1
  subst hl2
  have hshift := tokenize_loop_shift (text.data.length + 1) text.data (ln - 1) 0 1 []
  rw [hloop] at hshift
  simp only [List.map_nil, Except.map] at hshift
  have h1d : 1 + (ln - 1) = ln := by omega
  rw [h1d] at hshift
  have happ := tokenize_loop_append (text.data.length + 1) text.data 0 ln ts1
  rw [hshift] at happ
  simp only [Except.map] at happ
  have hfull : tokenize { text := text, pos := 0, line := ln, tokens := ts1 } =
      .ok (ts1 ++ ts1.map (shiftToken (ln - 1)),
           { text := text, pos := 0, line := ln + (ln - 1),
             tokens := ts1 ++ ts1.map (shiftToken (ln - 1)) }) := by
    simp only [tokenize, happ]
  constructor
  · exact hfull
  · intro hne heq
    rw [hfull] at heq
    simp only [Except.ok.injEq, Prod.mk.injEq] at heq
    have hl := congrArg List.length heq.1
    simp only [List.length_append, List.length_map] at hl
    exact hne (List.length_eq_zero.mp (by omega))

/-- Witness for C9: after scanning `(` once, a second call on the same
instance returns the paren token twice. -/
theorem tokenize_twice_witness :
    tokenize { text := "(", pos := 0, line := 1,
               tokens := [{ type := TokenType.PAREN_OPEN, value := "(", line := 1 }] } =
      .ok ([{ type := TokenType.PAREN_OPEN, value := "(", line := 1 }] ++
             [{ type := TokenType.PAREN_OPEN, value := "(", line := 1 }].map (shiftToken (1 - 1)),
           { text := "(", pos := 0, line := 1 + (1 - 1),
             tokens := [{ type := TokenType.PAREN_OPEN, value := "(", line := 1 }] ++
               [{ type := TokenType.PAREN_OPEN, value := "(",
                   line := 1 }].map (shiftToken (1 - 1)) }) :=
  (tokenize_twice "(" [{ type := TokenType.PAREN_OPEN, value := "(", line := 1 }]
    { text := "(", pos := 0, line := 1,
      tokens := [{ type := TokenType.PAREN_OPEN, value := "(", line := 1 }] }
    (by rfl)).1

/-- Counterexample for C9: on the empty buffer the first call returns
the empty sequence and leaves the state identical to a fresh instance,
so the second call returns exactly the same (empty) sequence — the
claim's "does not return the same sequence" fails there. -/
theorem tokenize_twice_cx :
    tokenize (mkLexer "") = .ok ([], mkLexer "") ∧
      (tokenize (mkLexer "")).bind (fun p => tokenize p.2) = .ok ([], mkLexer "") :=
  ⟨by rfl, by rfl⟩

/-- Claim C10 (corrected).  The claim asserts termination for every
buffer whose comment/string/atom/number scans all reach a terminator in
bounds, on the ground that every dispatch iteration strictly advances
the cursor.  That is false: a character matched by *no* dispatch rule
(for example `[`) leaves the cursor unchanged and the Python loop spins
forever — modelled here by the loop exhausting any iteration budget.
The amendment adds the missing hypothesis: if every character of the
buffer is covered by some dispatch rule, the loop never exhausts a
budget exceeding the buffer length, because every completed iteration
strictly advances the cursor. -/
theorem tokenize_termination (l : Lexer)
    (hcl : ∀ c ∈ l.text.data, classified c = true) :
    tokenize l ≠ .error .fuelOut := by
  intro h
  cases hres : tokenize_loop (l.text.data.length + 1) l.text.data 0 l.line l.tokens with
  | error e =>
    simp only [tokenize, hres] at h
    simp only [Except.error.injEq] at h
    subst h
    exact tokenize_loop_fuel (l.text.data.length + 1) l.text.data hcl 0 l.line l.tokens
      (by omega) hres
  | ok p =>
    obtain ⟨ts, ln⟩ := p
    simp only [tokenize, hres] at h
    exact absurd h (by simp)

/-- Witness for C10 on the buffer `(a)`, all of whose characters are
classified. -/
theorem tokenize_termination_witness : tokenize (mkLexer "(a)") ≠ .error .fuelOut :=
  tokenize_termination (mkLexer "(a)") (by decide)

/-- Counterexample for C10: the buffer `[` contains no comment, string,
atom or number scan at all — the claim's hypothesis holds vacuously —
yet the dispatch loop never terminates on it (the iteration budget,
however large, is exhausted with the cursor stuck at 0). -/
theorem tokenize_termination_cx : tokenize (mkLexer "[") = .error .fuelOut := by
  rfl


end Llll
